import Mathlib

/-!
Verification of the hub-scrub tag pruner (cmd/hub-scrub/main.go).

The development shallowly embeds the Go program: JSON documents are an
inductive `Json` type (the wire format after syntactic parsing), HTTP
traffic is an environment function from URL to an outcome, `time.Time`
is an instant counted in nanoseconds since the Unix epoch, and the
pagination loop of `List` is given fuel (the Go loop has no iteration
cap, so divergence shows up as fuel exhaustion at every fuel value).
-/

namespace HubScrub

/-- JSON values, the wire format seen by `encoding/json` after syntax
checking.  Object member order is kept because Go decodes members in
order (a later duplicate key overwrites an earlier one). -/
inductive Json where
  | null : Json
  | bool (b : Bool) : Json
  | num (n : Int) : Json
  | str (s : String) : Json
  | arr (elems : List Json) : Json
  | obj (fields : List (String × Json)) : Json

/-- Errors surfaced by the embedded Go code, tagged by the stage that
produced them. -/
inductive GoErr where
  | newRequest (msg : String) : GoErr
  | transport (msg : String) : GoErr
  | bodyRead (msg : String) : GoErr
  | typeError : GoErr
  | timeParse (s : String) : GoErr
deriving Repr, DecidableEq

/-- `time.Time`, reduced to what the program observes: an instant,
counted in nanoseconds since the Unix epoch (Go durations are int64
nanosecond counts and `time.Since` subtracts instants). -/
structure Time where
  ns : Int
deriving Repr, DecidableEq

/-- The zero `time.Time` (January 1, year 1, 00:00:00 UTC) as Unix
nanoseconds; fields left untouched by `json.Unmarshal` keep it. -/
def zeroTime : Time := ⟨-62135596800000000000⟩

/-- Leap-year test from Go's `time` package. -/
def isLeap (y : Nat) : Bool := y % 4 = 0 && (y % 100 ≠ 0 || y % 400 = 0)

/-- Number of days in a month, as validated by `time.Date`. -/
def daysInMonth (y mo : Nat) : Nat :=
  if mo = 2 then (if isLeap y then 29 else 28)
  else if mo = 4 ∨ mo = 6 ∨ mo = 9 ∨ mo = 11 then 30
  else 31

/-- Day count of a civil date, for years shifted up by 400 so the whole
computation stays in `Nat` (standard days-from-civil algorithm; `yy` is
the real year plus 400, `m` is 1..12, `d` is 1-based). -/
def daysShifted (yy m d : Nat) : Nat :=
  let y := if m ≤ 2 then yy - 1 else yy
  let era := y / 400
  let yoe := y - era * 400
  let mp := (m + 9) % 12
  let doy := (153 * mp + 2) / 5 + d - 1
  let doe := yoe * 365 + yoe / 4 - yoe / 100 + doy
  era * 146097 + doe

/-- Days from the Unix epoch (1970-01-01) to the civil date y-m-d. -/
def epochDays (y m d : Nat) : Int :=
  (daysShifted (y + 400) m d : Int) - 146097 - 719468

/-- Unix nanoseconds of a civil timestamp with a zone offset in seconds
(what `time.Date` computes for the parsed fields). -/
def civilToNs (y mo d h mi s nsec : Nat) (offsetSec : Int) : Int :=
  ((epochDays y mo d) * 86400 + (h * 3600 + mi * 60 + s : Nat) - offsetSec)
      * 1000000000 + (nsec : Int)

/-- Decimal digit value of a character, if it is one. -/
def digitVal (c : Char) : Option Nat :=
  if '0' ≤ c ∧ c ≤ '9' then some (c.toNat - '0'.toNat) else none

/-- Read exactly two decimal digits (Go's fixed-width numeric layout
elements such as `01`, `02`, `15`, `04`, `05`). -/
def getnum2 : List Char → Option (Nat × List Char)
  | c1 :: c2 :: rest =>
    match digitVal c1, digitVal c2 with
    | some a, some b => some (a * 10 + b, rest)
    | _, _ => none
  | _ => none

/-- Read exactly four decimal digits (Go's `2006` layout element). -/
def getnum4 : List Char → Option (Nat × List Char)
  | c1 :: c2 :: c3 :: c4 :: rest =>
    match digitVal c1, digitVal c2, digitVal c3, digitVal c4 with
    | some a, some b, some c, some d =>
      some (((a * 10 + b) * 10 + c) * 10 + d, rest)
    | _, _, _, _ => none
  | _ => none

/-- Consume a run of decimal digits, returning its value, its length
and the rest of the input. -/
def takeDigitsAcc : List Char → Nat → Nat → Nat × Nat × List Char
  | [], v, n => (v, n, [])
  | c :: rest, v, n =>
    match digitVal c with
    | some dv => takeDigitsAcc rest (v * 10 + dv) (n + 1)
    | none => (v, n, c :: rest)

/-- Optional fractional seconds, Go's `.999999999` layout element: a
period (or comma) followed by 1 to 9 digits; trailing digits beyond
nine are a range error; an absent fraction yields zero nanoseconds. -/
def parseFrac : List Char → Option (Nat × List Char)
  | c :: d :: rest =>
    if (c = '.' ∨ c = ',') ∧ (digitVal d).isSome then
      match takeDigitsAcc (d :: rest) 0 0 with
      | (v, n, r) => if n > 9 then none else some (v * 10 ^ (9 - n), r)
    else some (0, c :: d :: rest)
  | cs => some (0, cs)

/-- Time zone, Go's `Z07:00` layout element: the literal `Z` for UTC or
a signed `hh:mm` offset, returned in seconds. -/
def parseTZ : List Char → Option (Int × List Char)
  | [] => none
  | c :: rest =>
    if c = 'Z' then some (0, rest)
    else if c = '+' ∨ c = '-' then
      match getnum2 rest with
      | none => none
      | some (hh, r1) =>
        match r1 with
        | ':' :: r2 =>
          match getnum2 r2 with
          | none => none
          | some (mm, r3) =>
            let off : Int := (hh * 3600 + mm * 60 : Nat)
            some (if c = '-' then -off else off, r3)
        | _ => none
    else none

/-- `time.Parse(time.RFC3339Nano, s)`: layout
`2006-01-02T15:04:05.999999999Z07:00` with the fraction optional,
followed by the range validation `time.Date` applies; the result is the
parsed instant in Unix nanoseconds, or `none` on any parse or range
error. -/
def parseRFC3339Nano (s : String) : Option Int := do
  let cs := s.toList
  let (y, cs) ← getnum4 cs
  let cs ← match cs with | '-' :: r => some r | _ => none
  let (mo, cs) ← getnum2 cs
  let cs ← match cs with | '-' :: r => some r | _ => none
  let (d, cs) ← getnum2 cs
  let cs ← match cs with | 'T' :: r => some r | _ => none
  let (h, cs) ← getnum2 cs
  let cs ← match cs with | ':' :: r => some r | _ => none
  let (mi, cs) ← getnum2 cs
  let cs ← match cs with | ':' :: r => some r | _ => none
  let (sec, cs) ← getnum2 cs
  let (nsec, cs) ← parseFrac cs
  let (off, cs) ← parseTZ cs
  if cs = [] ∧ 1 ≤ mo ∧ mo ≤ 12 ∧ 1 ≤ d ∧ d ≤ daysInMonth y mo ∧
      h ≤ 23 ∧ mi ≤ 59 ∧ sec ≤ 59 then
    some (civilToNs y mo d h mi sec nsec off)
  else none

/-- `json.Unmarshal(data, &s)` for a `string` target: a JSON string
stores its contents, JSON `null` is a no-op that keeps the zero value
`""`, anything else is an `UnmarshalTypeError`. -/
def unmarshalString : Json → Except GoErr String
  | Json.str s => Except.ok s
  | Json.null => Except.ok ""
  | _ => Except.error GoErr.typeError

/-- `(*Time).UnmarshalJSON` from main.go: unmarshal the raw value into
a string, parse it with `time.RFC3339Nano`, and only on full success
store the parsed instant in the receiver.  Returned as (new receiver
value, error), mirroring the mutation discipline of the Go method. -/
def Time.unmarshalJSON (t : Time) (data : Json) : Time × Option GoErr :=
  match unmarshalString data with
  | Except.error e => (t, some e)
  | Except.ok s =>
    match parseRFC3339Nano s with
    | none => (t, some (GoErr.timeParse s))
    | some tt => (⟨tt⟩, none)

/-- The `Page` struct of main.go: one fetched batch of the paginated
tag listing. -/
structure Page where
  count : Int
  next : String
  previous : String
  results : List Json

/-- The zero `Page`, the state of `page := &Page{}` before decoding. -/
def emptyPage : Page := ⟨0, "", "", []⟩

/-- Look a key up in a decoded JSON object the way `encoding/json`
fills struct fields: members are processed in order and a later
duplicate key overwrites an earlier one. -/
def lookupLast (fields : List (String × Json)) (key : String) : Option Json :=
  fields.foldl (fun acc kv => if kv.1 = key then some kv.2 else acc) none

/-- `json.Unmarshal` of a JSON value into an `int` field: JSON numbers
store their value, `null` keeps the field, anything else is a type
error. -/
def fieldInt (cur : Int) : Json → Except GoErr Int
  | Json.num n => Except.ok n
  | Json.null => Except.ok cur
  | _ => Except.error GoErr.typeError

/-- `json.Unmarshal` of a JSON value into a `string` field. -/
def fieldString (cur : String) : Json → Except GoErr String
  | Json.str s => Except.ok s
  | Json.null => Except.ok cur
  | _ => Except.error GoErr.typeError

/-- `json.Unmarshal` of a JSON value into a `[]interface{}` field:
arrays store their elements, `null` keeps the field. -/
def fieldArr (cur : List Json) : Json → Except GoErr (List Json)
  | Json.arr xs => Except.ok xs
  | Json.null => Except.ok cur
  | _ => Except.error GoErr.typeError

/-- `json.Unmarshal(body, page)` for the `Page` struct: the body must
be a JSON object (or `null`, a no-op); the tagged fields `count`,
`next`, `previous` and `results` are filled from the object, absent
keys keep the zero value. -/
def decodePage (j : Json) : Except GoErr Page :=
  match j with
  | Json.null => Except.ok emptyPage
  | Json.obj fields => do
    let count ← match lookupLast fields "count" with
      | none => Except.ok emptyPage.count
      | some v => fieldInt emptyPage.count v
    let next ← match lookupLast fields "next" with
      | none => Except.ok emptyPage.next
      | some v => fieldString emptyPage.next v
    let previous ← match lookupLast fields "previous" with
      | none => Except.ok emptyPage.previous
      | some v => fieldString emptyPage.previous v
    let results ← match lookupLast fields "results" with
      | none => Except.ok emptyPage.results
      | some v => fieldArr emptyPage.results v
    Except.ok ⟨count, next, previous, results⟩
  | _ => Except.error GoErr.typeError

/-- `json.Marshal` of a `Page` value, the wire form the registry sends
for one batch. -/
def encodePage (p : Page) : Json :=
  Json.obj [("count", Json.num p.count), ("next", Json.str p.next),
            ("previous", Json.str p.previous), ("results", Json.arr p.results)]

/-- The `Tag` struct of main.go: a tag name and its last-updated
instant. -/
structure Tag where
  name : String
  lastUpdated : Time
deriving Repr, DecidableEq

/-- The zero `Tag`. -/
def emptyTag : Tag := ⟨"", zeroTime⟩

/-- `json.Unmarshal` of one array element into a `Tag`: the element
must be an object (or `null`, a no-op); `name` fills the string field,
and `last_updated` is handed raw to `(*Time).UnmarshalJSON`. -/
def decodeTag (j : Json) : Except GoErr Tag :=
  match j with
  | Json.null => Except.ok emptyTag
  | Json.obj fields => do
    let name ← match lookupLast fields "name" with
      | none => Except.ok emptyTag.name
      | some v => fieldString emptyTag.name v
    let lastUpdated ← match lookupLast fields "last_updated" with
      | none => Except.ok emptyTag.lastUpdated
      | some v =>
        match Time.unmarshalJSON emptyTag.lastUpdated v with
        | (_, some e) => Except.error e
        | (t, none) => Except.ok t
    Except.ok ⟨name, lastUpdated⟩
  | _ => Except.error GoErr.typeError

/-- Element-by-element decoding of a JSON array into `[]Tag`, in array
order, aborting at the first failing element. -/
def decodeTags : List Json → Except GoErr (List Tag)
  | [] => Except.ok []
  | j :: rest =>
    match decodeTag j with
    | Except.error e => Except.error e
    | Except.ok t =>
      match decodeTags rest with
      | Except.error e => Except.error e
      | Except.ok ts => Except.ok (t :: ts)

/-- `json.Unmarshal(resultsRaw, results)` for the `TagList` target of
main.go: the document must be an array of tag records (or `null`, a
no-op on the empty `TagList{}`). -/
def decodeTagList (j : Json) : Except GoErr (List Tag) :=
  match j with
  | Json.null => Except.ok []
  | Json.arr xs => decodeTags xs
  | _ => Except.error GoErr.typeError

/-- `json.Marshal(resultsUntyped)`: re-encoding the untyped accumulator
(already JSON values in this embedding) is forming the array. -/
def marshalUntyped (untyped : List Json) : Json := Json.arr untyped

/-- One object member written into a `Tag` the way `encoding/json`
sets struct fields through the destination pointer: `name` takes a
string (`null` is a no-op), `last_updated` goes through
`(*Time).UnmarshalJSON` (whose receiver is the current field value),
and unknown keys are skipped. -/
def setTagField (cur : Tag) (key : String) (v : Json) : Tag × Option GoErr :=
  if key = "name" then
    match v with
    | Json.str s => ({ cur with name := s }, none)
    | Json.null => (cur, none)
    | _ => (cur, some GoErr.typeError)
  else if key = "last_updated" then
    match Time.unmarshalJSON cur.lastUpdated v with
    | (t, none) => ({ cur with lastUpdated := t }, none)
    | (t, some e) => ({ cur with lastUpdated := t }, some e)
  else (cur, none)

/-- Members of a tag record written into a `Tag` in member order; an
error stops the walk with the fields written so far kept (the
destination has already been mutated). -/
def unmarshalTagFields : Tag → List (String × Json) → Tag × Option GoErr
  | cur, [] => (cur, none)
  | cur, (k, v) :: rest =>
    match setTagField cur k v with
    | (c2, some e) => (c2, some e)
    | (c2, none) => unmarshalTagFields c2 rest

/-- One array element decoded in place into a `Tag` slot: `null` is a
no-op, an object writes its members into the slot, anything else is a
type error leaving the slot as it was. -/
def unmarshalTagInto (cur : Tag) : Json → Tag × Option GoErr
  | Json.null => (cur, none)
  | Json.obj fields => unmarshalTagFields cur fields
  | _ => (cur, some GoErr.typeError)

/-- Array elements decoded in place into the destination slice the way
`encoding/json` does: element `i` is decoded into the existing slot
`i` (the slice is grown with zero `Tag`s as needed), an element error
stops the walk at once leaving the decoded prefix, the partially
written failing slot and the untouched old tail in the destination,
and a successful walk truncates the destination to the array's
length. -/
def unmarshalTagElems : List Tag → List Json → List Tag × Option GoErr
  | _, [] => ([], none)
  | dest, j :: js =>
    let cur := match dest with | [] => emptyTag | t :: _ => t
    let rest := match dest with | [] => ([] : List Tag) | _ :: r => r
    match unmarshalTagInto cur j with
    | (t2, some e) => (t2 :: rest, some e)
    | (t2, none) =>
      match unmarshalTagElems rest js with
      | (ts, e) => (t2 :: ts, e)

/-- `json.Unmarshal(resultsRaw, results)` for the `*TagList` target of
main.go, with the in-place mutation `encoding/json` performs through
the pointer: the returned slice is the destination's state when the
call returns, which on an element error already holds the partially
decoded data. -/
def unmarshalTagList (j : Json) (dest : List Tag) : List Tag × Option GoErr :=
  match j with
  | Json.null => (dest, none)
  | Json.arr xs => unmarshalTagElems dest xs
  | _ => (dest, some GoErr.typeError)

/-- Outcome of one GET in the pagination loop, as driven by the outside
world: `http.NewRequest` failure, `client.Do` failure, `ioutil.ReadAll`
failure after a response body was obtained, or a fully read body. -/
inductive HttpResult where
  | reqErr (msg : String) : HttpResult
  | doErr (msg : String) : HttpResult
  | readErr (msg : String) : HttpResult
  | body (j : Json) : HttpResult

/-- Result of the pagination loop of `List`: the accumulated untyped
records (or the first error), the number of response bodies obtained
but never closed, and the number of fetches attempted. -/
structure LoopOut where
  result : Except GoErr (List Json)
  leaked : Nat
  requests : Nat

/-- The `for` loop of `List` (main.go lines 81-116), with fuel: each
iteration stops on an empty URL, otherwise builds and issues the GET,
reads the body, closes it, decodes the `Page`, appends `page.Results`
to the accumulator and moves to `page.Next`.  On a `ReadAll` failure
the Go code returns before `rsp.Body.Close()`, so that path counts one
leaked body.  `none` means the fuel ran out (the Go loop has no cap). -/
def listLoop (env : String → HttpResult) :
    Nat → String → List Json → Nat → Nat → Option LoopOut
  | 0, _, _, _, _ => none
  | fuel + 1, url, acc, leaked, reqs =>
    if url = "" then some ⟨Except.ok acc, leaked, reqs⟩
    else
      match env url with
      | HttpResult.reqErr m => some ⟨Except.error (GoErr.newRequest m), leaked, reqs + 1⟩
      | HttpResult.doErr m => some ⟨Except.error (GoErr.transport m), leaked, reqs + 1⟩
      | HttpResult.readErr m => some ⟨Except.error (GoErr.bodyRead m), leaked + 1, reqs + 1⟩
      | HttpResult.body j =>
        match decodePage j with
        | Except.error e => some ⟨Except.error e, leaked, reqs + 1⟩
        | Except.ok page =>
          listLoop env fuel page.next (acc ++ page.results) leaked (reqs + 1)

/-- Result of `List` as seen by its caller: the final value of the
out-parameter `results`, the returned error (if any), and the loop's
leak and request counts.  On a loop-stage error the out-parameter
still holds the value the caller passed in (the final unmarshal is
never reached); on a final-unmarshal error it holds whatever the
in-place decode left behind. -/
structure ListOut (α : Type) where
  results : α
  err : Option GoErr
  leaked : Nat
  requests : Nat

/-- `List(token, url, results)` from main.go, generic over the typed
target the way the Go function is generic over `results interface{}`:
run the pagination loop from `url` with an empty untyped accumulator,
then marshal the accumulator and unmarshal it into the caller's
collection through `dec`, which mutates the destination in place the
way `json.Unmarshal` writes through the pointer (taking the current
destination value and returning the new one with the error, if any). -/
def ListGo {α : Type} (dec : Json → α → α × Option GoErr) (env : String → HttpResult)
    (fuel : Nat) (url : String) (r0 : α) : Option (ListOut α) :=
  match listLoop env fuel url [] 0 0 with
  | none => none
  | some lo =>
    match lo.result with
    | Except.error e => some ⟨r0, some e, lo.leaked, lo.requests⟩
    | Except.ok untyped =>
      match dec (marshalUntyped untyped) r0 with
      | (v, err) => some ⟨v, err, lo.leaked, lo.requests⟩

/-- Outcome of one DELETE attempt in the reap loop, as driven by the
outside world: `http.NewRequest` failure, `client.Do` failure, or a
completed response with a status code (whose body `main` closes). -/
inductive DelOutcome where
  | reqErr (msg : String) : DelOutcome
  | doErr (msg : String) : DelOutcome
  | status (code : Nat) : DelOutcome
deriving Repr, DecidableEq

/-- The diagnostics `main` prints, one constructor per `fmt.Println`
call site. -/
inductive Event where
  | deletingTag (name : String) (age : Int) : Event
  | unexpectedStatus (code : Nat) : Event
  | listFailed (e : GoErr) : Event
  | createDeleteFailed (msg : String) : Event
  | performDeleteFailed (msg : String) : Event
  | thresholdParseFailed (msg : String) : Event
  | authFailed (msg : String) : Event
deriving Repr, DecidableEq

/-- Result of the reap loop: the exit code it imposes on the process
(0 when the loop runs to completion), the names for which a DELETE
request was sent, in order, and the diagnostics printed. -/
structure ReapOut where
  exitCode : Nat
  issued : List String
  events : List Event
deriving Repr, DecidableEq

/-- The reap loop of `main` (main.go lines 205-229): for each tag whose
age `now - last_updated` strictly exceeds the threshold, print the
informational line, build and send the DELETE; a request-construction
or transport failure prints a diagnostic and exits 1 on the spot; a
completed response has its body closed, a status other than 204 prints
a diagnostic, and the loop continues either way. -/
def reapLoop (del : String → DelOutcome) (now threshold : Int) :
    List Tag → ReapOut
  | [] => ⟨0, [], []⟩
  | tag :: rest =>
    if now - tag.lastUpdated.ns > threshold then
      let ev := Event.deletingTag tag.name (now - tag.lastUpdated.ns)
      match del tag.name with
      | DelOutcome.reqErr m => ⟨1, [], [ev, Event.createDeleteFailed m]⟩
      | DelOutcome.doErr m => ⟨1, [tag.name], [ev, Event.performDeleteFailed m]⟩
      | DelOutcome.status c =>
        let tail := reapLoop del now threshold rest
        ⟨tail.exitCode, tag.name :: tail.issued,
          ev :: ((if c ≠ 204 then [Event.unexpectedStatus c] else []) ++ tail.events)⟩
    else reapLoop del now threshold rest

/-- Result of one whole run of `main`: the process exit code, the
DELETE requests sent, and the diagnostics printed. -/
structure RunResult where
  exitCode : Nat
  deletesIssued : List String
  events : List Event
deriving Repr, DecidableEq

/-- The outside world a run of `main` interacts with: the parsed `-t`
threshold (`time.ParseDuration` result), the login outcome (token or
first failing stage's message), the page-fetch environment with the
fuel the pagination loop is allowed, the DELETE environment keyed by
tag name, and the wall clock `time.Since` reads. -/
structure MainEnv where
  thresholdRes : Except String Int
  authRes : Except String String
  fetch : String → HttpResult
  fuel : Nat
  del : String → DelOutcome
  now : Int

/-- The starting URL `main` builds for the tag listing. -/
def tagsURL (username image : String) : String :=
  "https://hub.docker.com/v2/repositories/" ++ username ++ "/" ++ image ++ "/tags"

/-- `main` from main.go: parse the threshold (exit 1 on failure),
authenticate (exit 1 on failure), call `List` into an empty `TagList`
— a listing failure prints a diagnostic and exits 0 — then run the
reap loop over the materialized tags.  `none` means the pagination
loop ran out of fuel. -/
def mainGo (username image : String) (env : MainEnv) : Option RunResult :=
  match env.thresholdRes with
  | Except.error e => some ⟨1, [], [Event.thresholdParseFailed e]⟩
  | Except.ok threshold =>
    match env.authRes with
    | Except.error e => some ⟨1, [], [Event.authFailed e]⟩
    | Except.ok _ =>
      match ListGo unmarshalTagList env.fetch env.fuel (tagsURL username image) [] with
      | none => none
      | some lo =>
        match lo.err with
        | some e => some ⟨0, [], [Event.listFailed e]⟩
        | none =>
          let r := reapLoop env.del env.now threshold lo.results
          some ⟨r.exitCode, r.issued, r.events⟩

/-- A cursor chain: the walk is at `url`, the chain's pages follow in
order, each page is served at the URL the previous page's `next` names,
and the last page's `next` is empty (the empty tail requires the
current URL to be empty, which is exactly where the loop stops). -/
def chainLinked : String → List (String × Page) → Prop
  | url, [] => url = ""
  | url, (u, p) :: rest => url = u ∧ u ≠ "" ∧ chainLinked p.next rest

/-- Serve a chain over HTTP: a URL on the chain answers with its page's
encoding (first match wins), anything else is a transport failure. -/
def chainEnv (chain : List (String × Page)) : String → HttpResult :=
  fun url =>
    match chain.find? (fun up => up.1 = url) with
    | some up => HttpResult.body (encodePage up.2)
    | none => HttpResult.doErr "no such page"

/-- The concatenation of the chain's pages' result records, in page
order. -/
def pagesResults (chain : List (String × Page)) : List Json :=
  (chain.map (fun up => up.2.results)).flatten

/-- An upstream that answers every URL with a page whose `next` points
back at the same URL: a pagination cycle. -/
def cycleEnv : String → HttpResult :=
  fun url => HttpResult.body (encodePage ⟨0, url, "", []⟩)

/-! Concrete registries used to exercise the theorems on closed inputs. -/

/-- First page URL of a small two-page registry. -/
def urlW1 : String := "https://hub.docker.com/v2/repositories/alice/app/tags"

/-- Second page URL of the two-page registry. -/
def urlW2 : String := "https://hub.docker.com/v2/repositories/alice/app/tags?page=2"

/-- A tag record on the wire. -/
def recW1 : Json :=
  Json.obj [("name", Json.str "v1"), ("last_updated", Json.str "2020-01-01T00:00:00Z")]

/-- A tag record with a fractional-second timestamp. -/
def recW2 : Json :=
  Json.obj [("name", Json.str "v2"), ("last_updated", Json.str "2020-03-04T05:06:07.5Z")]

/-- A tag record with a nanosecond-precision timestamp. -/
def recW3 : Json :=
  Json.obj [("name", Json.str "v3"), ("last_updated", Json.str "2021-12-31T23:59:59.999999999Z")]

/-- First page of the two-page registry. -/
def pageW1 : Page := ⟨3, urlW2, "", [recW1, recW2]⟩

/-- Second (and last) page of the two-page registry. -/
def pageW2 : Page := ⟨3, "", urlW1, [recW3]⟩

/-- The two-page cursor chain. -/
def chainW : List (String × Page) := [(urlW1, pageW1), (urlW2, pageW2)]

/-- The typed tags the two-page registry materializes to. -/
def tagsW : List Tag :=
  [⟨"v1", ⟨civilToNs 2020 1 1 0 0 0 0 0⟩⟩,
   ⟨"v2", ⟨civilToNs 2020 3 4 5 6 7 500000000 0⟩⟩,
   ⟨"v3", ⟨civilToNs 2021 12 31 23 59 59 999999999 0⟩⟩]

/-- A single-page registry (`next` empty from the start). -/
def pageS : Page := ⟨1, "", "", [recW1]⟩

/-- The single-page cursor chain. -/
def chainS : List (String × Page) := [(urlW1, pageS)]

/-- The typed tags of the single-page registry. -/
def tagsS : List Tag := [⟨"v1", ⟨civilToNs 2020 1 1 0 0 0 0 0⟩⟩]

/-- The evaluation instant for the reaping scenarios:
2020-01-02T00:00:00Z in Unix nanoseconds. -/
def nowW : Int := civilToNs 2020 1 2 0 0 0 0 0

/-- A one-hour threshold in nanoseconds. -/
def thrW : Int := 3600000000000

/-- Boundary page: `keep` is exactly one hour old at `nowW`, `old` is
one hour and one nanosecond old. -/
def pageB : Page :=
  ⟨2, "", "",
   [Json.obj [("name", Json.str "keep"), ("last_updated", Json.str "2020-01-01T23:00:00Z")],
    Json.obj [("name", Json.str "old"), ("last_updated", Json.str "2020-01-01T22:59:59.999999999Z")]]⟩

/-- The typed tags of the boundary page. -/
def tagsB : List Tag :=
  [⟨"keep", ⟨civilToNs 2020 1 1 23 0 0 0 0⟩⟩,
   ⟨"old", ⟨civilToNs 2020 1 1 22 59 59 999999999 0⟩⟩]

/-- World for the boundary scenario: every DELETE answers 204. -/
def envB : MainEnv :=
  ⟨Except.ok thrW, Except.ok "token", chainEnv [(tagsURL "alice" "app", pageB)],
   2, fun _ => DelOutcome.status 204, nowW⟩

/-- World where the tag listing dies of a transport failure. -/
def envListFail : MainEnv :=
  ⟨Except.ok thrW, Except.ok "token", fun _ => HttpResult.doErr "connection refused",
   1, fun _ => DelOutcome.status 204, nowW⟩

/-- Page of four tags for the fatal-delete scenarios: `a`, `bad` and
`c` are over-threshold at `nowW`, `fresh` is not. -/
def pageF : Page :=
  ⟨4, "", "",
   [Json.obj [("name", Json.str "a"), ("last_updated", Json.str "2020-01-01T00:00:00Z")],
    Json.obj [("name", Json.str "fresh"), ("last_updated", Json.str "2020-01-01T23:30:00Z")],
    Json.obj [("name", Json.str "bad"), ("last_updated", Json.str "2020-01-01T00:00:00Z")],
    Json.obj [("name", Json.str "c"), ("last_updated", Json.str "2020-01-01T00:00:00Z")]]⟩

/-- The typed tags of the four-tag page, split for the fatal-delete
scenarios as `preF ++ tagBad :: postF`. -/
def preF : List Tag :=
  [⟨"a", ⟨civilToNs 2020 1 1 0 0 0 0 0⟩⟩,
   ⟨"fresh", ⟨civilToNs 2020 1 1 23 30 0 0 0⟩⟩]

/-- The tag whose DELETE fails in the fatal-delete scenarios. -/
def tagBad : Tag := ⟨"bad", ⟨civilToNs 2020 1 1 0 0 0 0 0⟩⟩

/-- The tags after the failing one. -/
def postF : List Tag := [⟨"c", ⟨civilToNs 2020 1 1 0 0 0 0 0⟩⟩]

/-- World where the DELETE for `bad` dies in `client.Do`. -/
def envDoFatal : MainEnv :=
  ⟨Except.ok thrW, Except.ok "token", chainEnv [(tagsURL "alice" "app", pageF)],
   2, fun name => if name = "bad" then DelOutcome.doErr "connection reset" else DelOutcome.status 204,
   nowW⟩

/-- World where the DELETE for `bad` already fails in `http.NewRequest`. -/
def envReqFatal : MainEnv :=
  ⟨Except.ok thrW, Except.ok "token", chainEnv [(tagsURL "alice" "app", pageF)],
   2, fun name => if name = "bad" then DelOutcome.reqErr "invalid url" else DelOutcome.status 204,
   nowW⟩

/-- World where the DELETE for `bad` completes with HTTP 403 and every
other DELETE answers 204. -/
def envForbidden : MainEnv :=
  ⟨Except.ok thrW, Except.ok "token", chainEnv [(tagsURL "alice" "app", pageF)],
   2, fun name => if name = "bad" then DelOutcome.status 403 else DelOutcome.status 204,
   nowW⟩

/-- An upstream whose body read always fails. -/
def leakEnv : String → HttpResult := fun _ => HttpResult.readErr "read reset"

/-- An upstream that always reports a transport failure. -/
def downEnv : String → HttpResult := fun _ => HttpResult.doErr "boom"

/-- A page whose record set contains one record with an unparseable
`last_updated`, so the typed decode of the accumulator fails. -/
def pageBadTime : Page :=
  ⟨1, "", "", [Json.obj [("name", Json.str "v1"), ("last_updated", Json.str "garbage")]]⟩

/-- Serve only the bad-timestamp page. -/
def envBadTime : String → HttpResult := chainEnv [(urlW1, pageBadTime)]

/-- A sentinel collection handed to `List` to watch for mutation. -/
def sentinel : List Tag := [⟨"sentinel", ⟨0⟩⟩]

/-! Helper lemmas. -/

/-- Decoding an encoded page gives the page back. -/
theorem decodePage_encodePage (p : Page) : decodePage (encodePage p) = Except.ok p := by
  cases p with
  | mk count next previous results =>
    simp only [decodePage, encodePage, lookupLast, fieldInt, fieldString, fieldArr,
      List.foldl]
    rfl

/-- The pagination loop stops at once on an empty URL, touching
nothing. -/
theorem listLoop_emptyUrl (env : String → HttpResult) (fuel : Nat)
    (acc : List Json) (leaked reqs : Nat) :
    listLoop env (fuel + 1) "" acc leaked reqs = some ⟨Except.ok acc, leaked, reqs⟩ := by
  simp [listLoop]

/-- Walking a linked chain with one unit of fuel per page terminates
with the pages' records appended to the accumulator in page order, no
leaked body, and one request per page. -/
theorem listLoop_chain (env : String → HttpResult) :
    ∀ (chain : List (String × Page)) (url : String) (acc : List Json) (leaked reqs : Nat),
      chainLinked url chain →
      (∀ up ∈ chain, env up.1 = HttpResult.body (encodePage up.2)) →
      listLoop env (chain.length + 1) url acc leaked reqs =
        some ⟨Except.ok (acc ++ pagesResults chain), leaked, reqs + chain.length⟩ := by
  intro chain
  induction chain with
  | nil =>
    intro url acc leaked reqs hlink _
    have hurl : url = "" := hlink
    subst hurl
    simp [listLoop, pagesResults]
  | cons hd tl ih =>
    obtain ⟨u, p⟩ := hd
    intro url acc leaked reqs hlink henv
    obtain ⟨hurl, hne, hrest⟩ := hlink
    subst hurl
    have henvu : env url = HttpResult.body (encodePage p) := henv (url, p) (by simp)
    have step :
        listLoop env (tl.length + 1 + 1) url acc leaked reqs =
          listLoop env (tl.length + 1) p.next (acc ++ p.results) leaked (reqs + 1) := by
      simp only [listLoop, if_neg hne, henvu, decodePage_encodePage]
    rw [List.length_cons, step,
      ih p.next (acc ++ p.results) leaked (reqs + 1) hrest
        (fun up hup => henv up (List.mem_cons_of_mem _ hup))]
    simp [pagesResults]
    omega

/-- A cyclic upstream makes the loop consume every amount of fuel:
the Go loop would never terminate. -/
theorem listLoop_cycle (fuel : Nat) :
    ∀ (url : String) (acc : List Json) (leaked reqs : Nat), url ≠ "" →
      listLoop cycleEnv fuel url acc leaked reqs = none := by
  induction fuel with
  | zero => intro url acc leaked reqs _; rfl
  | succ n ih =>
    intro url acc leaked reqs hne
    have henvu : cycleEnv url = HttpResult.body (encodePage ⟨0, url, "", []⟩) := rfl
    have step :
        listLoop cycleEnv (n + 1) url acc leaked reqs =
          listLoop cycleEnv n url (acc ++ []) leaked (reqs + 1) := by
      simp only [listLoop, if_neg hne, henvu, decodePage_encodePage]
    rw [step]
    exact ih url (acc ++ []) leaked (reqs + 1) hne

/-- Element-wise content of a successful `[]Tag` decode: the item count
is kept and the record at every index decodes to the tag at the same
index. -/
theorem decodeTags_spec :
    ∀ (xs : List Json) (ts : List Tag), decodeTags xs = Except.ok ts →
      ts.length = xs.length ∧
        ∀ (k : Nat) (hk : k < xs.length) (hk2 : k < ts.length),
          decodeTag (xs.get ⟨k, hk⟩) = Except.ok (ts.get ⟨k, hk2⟩) := by
  intro xs
  induction xs with
  | nil =>
    intro ts h
    simp [decodeTags] at h
    subst h
    exact ⟨rfl, fun k hk => absurd hk (by simp)⟩
  | cons j rest ih =>
    intro ts h
    simp only [decodeTags] at h
    cases hj : decodeTag j with
    | error e => rw [hj] at h; exact absurd h (by simp)
    | ok t =>
      rw [hj] at h
      cases hr : decodeTags rest with
      | error e => rw [hr] at h; exact absurd h (by simp)
      | ok ts2 =>
        rw [hr] at h
        cases h
        obtain ⟨hlen, hget⟩ := ih ts2 hr
        refine ⟨by simp [hlen], ?_⟩
        intro k hk hk2
        cases k with
        | zero => simpa using hj
        | succ k2 =>
          have hk' : k2 < rest.length := by simpa using hk
          have hk2' : k2 < ts2.length := by simpa using hk2
          simpa using hget k2 hk' hk2'

/-- A pagination-loop error reaches the caller as is, and the
out-parameter keeps the caller's value: the final unmarshal is never
reached. -/
theorem ListGo_loop_err (α : Type) (dec : Json → α → α × Option GoErr)
    (env : String → HttpResult) (fuel : Nat) (url : String) (r0 : α)
    (e : GoErr) (leaked reqs : Nat)
    (h : listLoop env fuel url [] 0 0 = some ⟨Except.error e, leaked, reqs⟩) :
    ListGo dec env fuel url r0 = some ⟨r0, some e, leaked, reqs⟩ := by
  unfold ListGo
  rw [h]

/-- `List` over a linked chain: the loop succeeds, the accumulator is
the page-order concatenation, and the typed unmarshal of its
re-encoding into the caller's collection is stored without error. -/
theorem ListGo_chain (α : Type) (dec : Json → α → α × Option GoErr)
    (env : String → HttpResult)
    (chain : List (String × Page)) (url : String) (r0 v : α)
    (hlink : chainLinked url chain)
    (henv : ∀ up ∈ chain, env up.1 = HttpResult.body (encodePage up.2))
    (hdec : dec (marshalUntyped (pagesResults chain)) r0 = (v, none)) :
    ListGo dec env (chain.length + 1) url r0 = some ⟨v, none, 0, chain.length⟩ := by
  unfold ListGo
  rw [listLoop_chain env chain url [] 0 0 hlink henv]
  simp only [List.nil_append, Nat.zero_add, hdec]

/-- A successful `List` call hands the reap loop its tags; the run's
exit code, DELETE requests and diagnostics are the loop's. -/
theorem mainGo_reap (username image : String) (env : MainEnv) (thr : Int) (tok : String)
    (tags : List Tag) (l r : Nat)
    (hthr : env.thresholdRes = Except.ok thr) (hauth : env.authRes = Except.ok tok)
    (hlist : ListGo unmarshalTagList env.fetch env.fuel (tagsURL username image) [] =
      some ⟨tags, none, l, r⟩) :
    mainGo username image env =
      some ⟨(reapLoop env.del env.now thr tags).exitCode,
            (reapLoop env.del env.now thr tags).issued,
            (reapLoop env.del env.now thr tags).events⟩ := by
  unfold mainGo
  rw [hthr, hauth, hlist]

/-- When every attempted DELETE completes with some status code, the
reap loop finishes with exit code 0 and sends exactly one DELETE per
over-threshold tag, in order. -/
theorem reapLoop_all_status (del : String → DelOutcome) (now thr : Int) :
    ∀ tags : List Tag,
      (∀ t ∈ tags, now - t.lastUpdated.ns > thr → ∃ c, del t.name = DelOutcome.status c) →
      (reapLoop del now thr tags).exitCode = 0 ∧
      (reapLoop del now thr tags).issued =
        (tags.filter fun t => decide (now - t.lastUpdated.ns > thr)).map Tag.name := by
  intro tags
  induction tags with
  | nil => intro _; exact ⟨rfl, rfl⟩
  | cons t rest ih =>
    intro hall
    obtain ⟨ih1, ih2⟩ := ih (fun t2 h2 hq2 => hall t2 (by simp [h2]) hq2)
    by_cases hq : now - t.lastUpdated.ns > thr
    · obtain ⟨c, hc⟩ := hall t (by simp) hq
      simp [reapLoop, hq, hc, List.filter_cons, ih1, ih2]
    · simp [reapLoop, hq, List.filter_cons, ih1, ih2]

/-- A DELETE that dies in construction or transport stops the reap
loop with exit code 1; the DELETEs already sent are exactly those of
the over-threshold tags before it (plus the failing attempt itself in
the transport case), and nothing after it is touched. -/
theorem reapLoop_fatal (del : String → DelOutcome) (now thr : Int) (t : Tag) (m : String) :
    ∀ (pre : List Tag) (post : List Tag),
      (∀ p ∈ pre, now - p.lastUpdated.ns > thr → ∃ c, del p.name = DelOutcome.status c) →
      now - t.lastUpdated.ns > thr →
      ((del t.name = DelOutcome.doErr m →
          (reapLoop del now thr (pre ++ t :: post)).exitCode = 1 ∧
          (reapLoop del now thr (pre ++ t :: post)).issued =
            (pre.filter fun p => decide (now - p.lastUpdated.ns > thr)).map Tag.name
              ++ [t.name]) ∧
       (del t.name = DelOutcome.reqErr m →
          (reapLoop del now thr (pre ++ t :: post)).exitCode = 1 ∧
          (reapLoop del now thr (pre ++ t :: post)).issued =
            (pre.filter fun p => decide (now - p.lastUpdated.ns > thr)).map Tag.name)) := by
  intro pre
  induction pre with
  | nil =>
    intro post _ ht
    constructor
    · intro hd; constructor <;> simp [reapLoop, ht, hd]
    · intro hd; constructor <;> simp [reapLoop, ht, hd]
  | cons p rest ih =>
    intro post hpre ht
    have ihp := ih post (fun q hq hqq => hpre q (by simp [hq]) hqq) ht
    by_cases hq : now - p.lastUpdated.ns > thr
    · obtain ⟨c, hc⟩ := hpre p (by simp) hq
      constructor
      · intro hd
        obtain ⟨h1, h2⟩ := ihp.1 hd
        simp [reapLoop, hq, hc, List.filter_cons, h1, h2]
      · intro hd
        obtain ⟨h1, h2⟩ := ihp.2 hd
        simp [reapLoop, hq, hc, List.filter_cons, h1, h2]
    · constructor
      · intro hd
        obtain ⟨h1, h2⟩ := ihp.1 hd
        simp [reapLoop, hq, List.filter_cons, h1, h2]
      · intro hd
        obtain ⟨h1, h2⟩ := ihp.2 hd
        simp [reapLoop, hq, List.filter_cons, h1, h2]

/-- A completed DELETE with a status other than 204 leaves its
diagnostic among the loop's printed events. -/
theorem reapLoop_unexpected_mem (del : String → DelOutcome) (now thr : Int)
    (t : Tag) (c : Nat) :
    ∀ (pre : List Tag) (post : List Tag),
      (∀ p ∈ pre, now - p.lastUpdated.ns > thr → ∃ c2, del p.name = DelOutcome.status c2) →
      now - t.lastUpdated.ns > thr →
      del t.name = DelOutcome.status c → c ≠ 204 →
      Event.unexpectedStatus c ∈ (reapLoop del now thr (pre ++ t :: post)).events := by
  intro pre
  induction pre with
  | nil =>
    intro post _ ht hc hne
    simp [reapLoop, ht, hc, hne]
  | cons p rest ih =>
    intro post hpre ht hc hne
    have ihp := ih post (fun q hq hqq => hpre q (by simp [hq]) hqq) ht hc hne
    by_cases hq : now - p.lastUpdated.ns > thr
    · obtain ⟨c2, hc2⟩ := hpre p (by simp) hq
      simp only [List.cons_append, reapLoop, if_pos hq, hc2]
      simp [ihp]
    · simpa [reapLoop, hq] using ihp

/-! Claim theorems. -/

/-- C1: for every cursor chain in which each page's `next` names the
following page's URL and the last page's `next` is empty, `List`'s
accumulated record sequence is the concatenation of the pages' result
records in page order with intra-page order preserved, one request is
issued per page (so a single page with empty `next` issues exactly one
request), and the out-parameter receives the typed decode of exactly
that concatenation. -/
theorem C1_list_concatenates_pages (env : String → HttpResult)
    (chain : List (String × Page)) (url : String) (r0 tags : List Tag)
    (hlink : chainLinked url chain)
    (henv : ∀ up ∈ chain, env up.1 = HttpResult.body (encodePage up.2))
    (hdec : unmarshalTagList (marshalUntyped (pagesResults chain)) r0 = (tags, none)) :
    listLoop env (chain.length + 1) url [] 0 0 =
      some ⟨Except.ok (pagesResults chain), 0, chain.length⟩ ∧
    ListGo unmarshalTagList env (chain.length + 1) url r0 =
      some ⟨tags, none, 0, chain.length⟩ := by
  constructor
  · have h := listLoop_chain env chain url [] 0 0 hlink henv
    simpa using h
  · exact ListGo_chain (List Tag) unmarshalTagList env chain url r0 tags hlink henv hdec

/-- Witness for C1: a concrete two-page registry materializes to the
three tags of its two pages in order with two requests, and a concrete
single-page registry to exactly its own page's tags with one request. -/
theorem C1_witness :
    ListGo unmarshalTagList (chainEnv chainW) 3 urlW1 [] = some ⟨tagsW, none, 0, 2⟩ ∧
    ListGo unmarshalTagList (chainEnv chainS) 2 urlW1 [] = some ⟨tagsS, none, 0, 1⟩ := by
  constructor
  · exact (C1_list_concatenates_pages (chainEnv chainW) chainW urlW1 [] tagsW
      ⟨rfl, by decide, rfl, by decide, rfl⟩
      (by intro up hup; fin_cases hup <;> rfl) (by rfl)).2
  · exact (C1_list_concatenates_pages (chainEnv chainS) chainS urlW1 [] tagsS
      ⟨rfl, by decide, rfl⟩
      (by intro up hup; fin_cases hup; rfl) (by rfl)).2

/-- C3 amended: every failure inside `List` aborts the call at once
and propagates that error; for errors of the pagination walk itself —
transport failure, body-read failure, page decode failure — the
caller-provided collection keeps the value it was passed in, the final
unmarshal never being reached; a failure of the final typed-collection
decode also aborts with its error, but by then `json.Unmarshal` has
been mutating the caller's collection in place, so the collection
holds whatever the partial decode left behind rather than its original
value. -/
theorem C3_list_error_propagation :
    (∀ (α : Type) (dec : Json → α → α × Option GoErr) (env : String → HttpResult)
       (fuel : Nat) (url : String) (r0 : α) (e : GoErr) (leaked reqs : Nat),
       listLoop env fuel url [] 0 0 = some ⟨Except.error e, leaked, reqs⟩ →
       ListGo dec env fuel url r0 = some ⟨r0, some e, leaked, reqs⟩) ∧
    (∀ (α : Type) (dec : Json → α → α × Option GoErr) (env : String → HttpResult)
       (fuel : Nat) (url : String) (r0 : α) (m : String), url ≠ "" →
       env url = HttpResult.doErr m →
       ListGo dec env (fuel + 1) url r0 =
         some ⟨r0, some (GoErr.transport m), 0, 1⟩) ∧
    (∀ (α : Type) (dec : Json → α → α × Option GoErr) (env : String → HttpResult)
       (fuel : Nat) (url : String) (r0 : α) (m : String), url ≠ "" →
       env url = HttpResult.readErr m →
       ListGo dec env (fuel + 1) url r0 =
         some ⟨r0, some (GoErr.bodyRead m), 1, 1⟩) ∧
    (∀ (α : Type) (dec : Json → α → α × Option GoErr) (env : String → HttpResult)
       (fuel : Nat) (url : String) (r0 : α) (j : Json) (e : GoErr), url ≠ "" →
       env url = HttpResult.body j → decodePage j = Except.error e →
       ListGo dec env (fuel + 1) url r0 = some ⟨r0, some e, 0, 1⟩) ∧
    (∀ (α : Type) (dec : Json → α → α × Option GoErr) (env : String → HttpResult)
       (fuel : Nat) (url : String) (r0 : α) (untyped : List Json)
       (leaked reqs : Nat) (v : α) (e : GoErr),
       listLoop env fuel url [] 0 0 = some ⟨Except.ok untyped, leaked, reqs⟩ →
       dec (marshalUntyped untyped) r0 = (v, some e) →
       ListGo dec env fuel url r0 = some ⟨v, some e, leaked, reqs⟩) := by
  refine ⟨ListGo_loop_err, ?_, ?_, ?_, ?_⟩
  · intro α dec env fuel url r0 m hurl henv
    have hstep : listLoop env (fuel + 1) url [] 0 0 =
        some ⟨Except.error (GoErr.transport m), 0, 0 + 1⟩ := by
      simp only [listLoop, if_neg hurl, henv]
    unfold ListGo
    rw [hstep]
  · intro α dec env fuel url r0 m hurl henv
    have hstep : listLoop env (fuel + 1) url [] 0 0 =
        some ⟨Except.error (GoErr.bodyRead m), 0 + 1, 0 + 1⟩ := by
      simp only [listLoop, if_neg hurl, henv]
    unfold ListGo
    rw [hstep]
  · intro α dec env fuel url r0 j e hurl henv hdec
    have hstep : listLoop env (fuel + 1) url [] 0 0 = some ⟨Except.error e, 0, 0 + 1⟩ := by
      simp only [listLoop, if_neg hurl, henv, hdec]
    unfold ListGo
    rw [hstep]
  · intro α dec env fuel url r0 untyped leaked reqs v e hlo hdec
    unfold ListGo
    rw [hlo]
    simp only [hdec]

/-- Counterexample to C3 as stated: at a final typed-decode failure
the caller-provided collection is not left unchanged.  Unmarshalling
the bad-timestamp page into the sentinel collection overwrites the
sentinel element's name with the record's `"v1"` before
`last_updated` fails to parse, so `List` returns the error together
with a mutated, partially decoded collection. -/
theorem C3_counterexample :
    ListGo unmarshalTagList envBadTime 2 urlW1 sentinel =
      some ⟨[⟨"v1", ⟨0⟩⟩], some (GoErr.timeParse "garbage"), 0, 1⟩ ∧
    ([⟨"v1", ⟨0⟩⟩] : List Tag) ≠ sentinel :=
  ⟨rfl, by decide⟩

/-- Witness for C3: a transport failure aborts a concrete `List` call
with the sentinel collection untouched, and a final typed-decode
failure on a fresh empty collection propagates the parse error with
the partially decoded element in place. -/
theorem C3_witness :
    ListGo unmarshalTagList downEnv 1 urlW1 sentinel =
      some ⟨sentinel, some (GoErr.transport "boom"), 0, 1⟩ ∧
    ListGo unmarshalTagList envBadTime 2 urlW1 [] =
      some ⟨[⟨"v1", zeroTime⟩], some (GoErr.timeParse "garbage"), 0, 1⟩ := by
  constructor
  · exact C3_list_error_propagation.2.1 (List Tag) unmarshalTagList downEnv 0 urlW1
      sentinel "boom" (by decide) rfl
  · exact C3_list_error_propagation.2.2.2.2 (List Tag) unmarshalTagList envBadTime 2
      urlW1 [] pageBadTime.results 0 1 [⟨"v1", zeroTime⟩]
      (GoErr.timeParse "garbage") (by rfl) (by rfl)

/-- C7: whenever the untyped record sequence accumulated by `List`,
re-encoded with `json.Marshal`, decodes into the typed `TagList`, the
item count is preserved and the record at every index is what the tag
at the same index decodes from — nothing is dropped and nothing is
reordered. -/
theorem C7_round_trip (untyped : List Json) (tags : List Tag)
    (h : decodeTagList (marshalUntyped untyped) = Except.ok tags) :
    tags.length = untyped.length ∧
      ∀ (k : Nat) (hk : k < untyped.length) (hk2 : k < tags.length),
        decodeTag (untyped.get ⟨k, hk⟩) = Except.ok (tags.get ⟨k, hk2⟩) :=
  decodeTags_spec untyped tags h

/-- Witness for C7: the three records accumulated from the two-page
registry re-decode to three tags, and the record at index 2 decodes to
the tag at index 2 with its name and timestamp fields intact. -/
theorem C7_witness :
    tagsW.length = (pagesResults chainW).length ∧
    decodeTag ((pagesResults chainW).get ⟨2, by decide⟩) =
      Except.ok (tagsW.get ⟨2, by decide⟩) := by
  obtain ⟨h1, h2⟩ := C7_round_trip (pagesResults chainW) tagsW (by rfl)
  exact ⟨h1, h2 2 (by decide) (by decide)⟩

/-- C8: the pagination loop stops exactly at an empty current URL — an
empty URL returns at once with the accumulator as is, every finite
linked chain ending in an empty `next` terminates within fuel equal to
its page count, and a cyclic upstream (a page whose `next` points back
at itself) exhausts every amount of fuel, since no iteration cap or
cycle detection exists. -/
theorem C8_pagination_termination :
    (∀ (env : String → HttpResult) (fuel : Nat) (acc : List Json) (leaked reqs : Nat),
       listLoop env (fuel + 1) "" acc leaked reqs = some ⟨Except.ok acc, leaked, reqs⟩) ∧
    (∀ (env : String → HttpResult) (chain : List (String × Page)) (url : String),
       chainLinked url chain →
       (∀ up ∈ chain, env up.1 = HttpResult.body (encodePage up.2)) →
       ∃ out, listLoop env (chain.length + 1) url [] 0 0 = some out ∧
         out.result = Except.ok (pagesResults chain)) ∧
    (∀ (fuel : Nat) (url : String) (acc : List Json) (leaked reqs : Nat), url ≠ "" →
       listLoop cycleEnv fuel url acc leaked reqs = none) := by
  refine ⟨listLoop_emptyUrl, ?_, listLoop_cycle⟩
  intro env chain url hlink henv
  refine ⟨⟨Except.ok (pagesResults chain), 0, chain.length⟩, ?_, rfl⟩
  have h := listLoop_chain env chain url [] 0 0 hlink henv
  simpa using h

/-- Witness for C8: an empty URL stops a concrete loop immediately, the
concrete single-page chain terminates within its fuel bound, and the
concrete cyclic upstream exhausts fuel 7. -/
theorem C8_witness :
    listLoop (chainEnv chainS) 1 "" [recW1] 0 5 = some ⟨Except.ok [recW1], 0, 5⟩ ∧
    (∃ out, listLoop (chainEnv chainS) 2 urlW1 [] 0 0 = some out ∧
       out.result = Except.ok (pagesResults chainS)) ∧
    listLoop cycleEnv 7 urlW1 [] 0 0 = none := by
  refine ⟨C8_pagination_termination.1 (chainEnv chainS) 0 [recW1] 0 5, ?_, ?_⟩
  · exact C8_pagination_termination.2.1 (chainEnv chainS) chainS urlW1
      ⟨rfl, by decide, rfl⟩ (by intro up hup; fin_cases hup; rfl)
  · exact C8_pagination_termination.2.2 7 urlW1 [] 0 0 (by decide)

/-- C9: the claim says every code path that obtains an HTTP response
closes the body; the code does not — when `ioutil.ReadAll` fails,
`List` returns before `rsp.Body.Close()` (main.go lines 101-106), so
that concrete run ends with one response body obtained and never
closed (`leaked = 1`). -/
theorem C9_body_read_failure_leaks :
    ListGo unmarshalTagList leakEnv 1 urlW1 sentinel =
      some ⟨sentinel, some (GoErr.bodyRead "read reset"), 1, 1⟩ := rfl

/-- C10: `Time.UnmarshalJSON` succeeds exactly on JSON strings that
parse under `time.RFC3339Nano`, storing the parsed instant; on a JSON
string that does not parse, and on any non-string input, it returns an
error and the receiver's stored time is unchanged. -/
theorem C10_time_unmarshal (t : Time) (d : Json) :
    (∀ (s : String) (v : Int), d = Json.str s → parseRFC3339Nano s = some v →
       Time.unmarshalJSON t d = (⟨v⟩, none)) ∧
    (∀ s : String, d = Json.str s → parseRFC3339Nano s = none →
       (Time.unmarshalJSON t d).1 = t ∧ (Time.unmarshalJSON t d).2.isSome) ∧
    ((∀ s : String, d ≠ Json.str s) →
       (Time.unmarshalJSON t d).1 = t ∧ (Time.unmarshalJSON t d).2.isSome) := by
  refine ⟨?_, ?_, ?_⟩
  · intro s v hd hp
    subst hd
    simp [Time.unmarshalJSON, unmarshalString, hp]
  · intro s hd hp
    subst hd
    simp [Time.unmarshalJSON, unmarshalString, hp]
  · intro hd
    cases d with
    | str s => exact absurd rfl (hd s)
    | null => exact ⟨rfl, rfl⟩
    | bool b => exact ⟨rfl, rfl⟩
    | num n => exact ⟨rfl, rfl⟩
    | arr xs => exact ⟨rfl, rfl⟩
    | obj fs => exact ⟨rfl, rfl⟩

/-- Witness for C10: a fractional-second RFC 3339 string stores its
parsed instant; an unparseable string and a JSON number both error and
leave a receiver holding 77 untouched. -/
theorem C10_witness :
    Time.unmarshalJSON ⟨0⟩ (Json.str "2020-03-04T05:06:07.5Z") =
      (⟨civilToNs 2020 3 4 5 6 7 500000000 0⟩, none) ∧
    (Time.unmarshalJSON ⟨77⟩ (Json.str "not-a-time")).1 = (⟨77⟩ : Time) ∧
    (Time.unmarshalJSON ⟨77⟩ (Json.num 5)).1 = (⟨77⟩ : Time) := by
  refine ⟨?_, ?_, ?_⟩
  · exact (C10_time_unmarshal ⟨0⟩ (Json.str "2020-03-04T05:06:07.5Z")).1
      "2020-03-04T05:06:07.5Z" (civilToNs 2020 3 4 5 6 7 500000000 0) rfl (by rfl)
  · exact ((C10_time_unmarshal ⟨77⟩ (Json.str "not-a-time")).2.1
      "not-a-time" rfl (by rfl)).1
  · exact ((C10_time_unmarshal ⟨77⟩ (Json.num 5)).2.2
      (fun s h => Json.noConfusion h)).1

/-- C2: over a materialized `TagList`, when every attempted DELETE
completes with a status code, the reaper issues a DELETE request for a
tag exactly when `now - last_updated` is strictly greater than the
threshold: the DELETE requests sent are, in order, exactly the names
of the strictly-over-threshold tags, so a tag exactly at the threshold
is retained and one a nanosecond older is selected. -/
theorem C2_reap_strict_threshold (username image tok : String) (env : MainEnv)
    (thr : Int) (tags : List Tag) (l r : Nat)
    (hthr : env.thresholdRes = Except.ok thr)
    (hauth : env.authRes = Except.ok tok)
    (hlist : ListGo unmarshalTagList env.fetch env.fuel (tagsURL username image) [] =
      some ⟨tags, none, l, r⟩)
    (hdel : ∀ t ∈ tags, ∃ c, env.del t.name = DelOutcome.status c) :
    ∃ out, mainGo username image env = some out ∧
      out.deletesIssued =
        (tags.filter fun t => decide (env.now - t.lastUpdated.ns > thr)).map Tag.name := by
  refine ⟨_, mainGo_reap username image env thr tok tags l r hthr hauth hlist, ?_⟩
  exact (reapLoop_all_status env.del env.now thr tags (fun t ht _ => hdel t ht)).2

/-- Witness for C2: at a one-hour threshold, the tag aged exactly one
hour is retained and the tag aged one hour and one nanosecond is the
only one deleted. -/
theorem C2_witness :
    ∃ out, mainGo "alice" "app" envB = some out ∧ out.deletesIssued = ["old"] := by
  obtain ⟨out, h1, h2⟩ := C2_reap_strict_threshold "alice" "app" "token" envB thrW
    tagsB 0 1 rfl rfl (by rfl) (fun t _ => ⟨204, rfl⟩)
  refine ⟨out, h1, ?_⟩
  rw [h2]
  rfl

/-- C4: when the tag-listing phase fails with any error, the process
prints the listing diagnostic and exits with code 0 — not non-zero —
and the reap phase is skipped entirely: no DELETE request is issued. -/
theorem C4_listing_failure_exits_zero (username image tok : String) (env : MainEnv)
    (thr : Int) (lo : ListOut (List Tag)) (e : GoErr)
    (hthr : env.thresholdRes = Except.ok thr)
    (hauth : env.authRes = Except.ok tok)
    (hlist : ListGo unmarshalTagList env.fetch env.fuel (tagsURL username image) [] = some lo)
    (herr : lo.err = some e) :
    mainGo username image env = some ⟨0, [], [Event.listFailed e]⟩ := by
  simp [mainGo, hthr, hauth, hlist, herr]

/-- Witness for C4: a registry that refuses every connection makes the
run exit 0 with the listing diagnostic and zero DELETE requests. -/
theorem C4_witness :
    mainGo "alice" "app" envListFail =
      some ⟨0, [], [Event.listFailed (GoErr.transport "connection refused")]⟩ :=
  C4_listing_failure_exits_zero "alice" "app" "token" envListFail thrW
    ⟨[], some (GoErr.transport "connection refused"), 0, 1⟩
    (GoErr.transport "connection refused") rfl rfl (by rfl) rfl

/-- C5: a delete attempt that fails in request construction or in
transport terminates the run with exit code 1, abandoning every
remaining deletion: the DELETE requests sent are exactly those for the
over-threshold tags before the failing one (plus the failing transport
attempt itself), and they are not rolled back — nothing is sent for
any tag after the failure. -/
theorem C5_fatal_delete_aborts_run (username image tok m : String) (env : MainEnv)
    (thr : Int) (pre post : List Tag) (t : Tag) (l r : Nat)
    (hthr : env.thresholdRes = Except.ok thr)
    (hauth : env.authRes = Except.ok tok)
    (hlist : ListGo unmarshalTagList env.fetch env.fuel (tagsURL username image) [] =
      some ⟨pre ++ t :: post, none, l, r⟩)
    (hpre : ∀ p ∈ pre, env.now - p.lastUpdated.ns > thr →
      ∃ c, env.del p.name = DelOutcome.status c)
    (ht : env.now - t.lastUpdated.ns > thr) :
    (env.del t.name = DelOutcome.doErr m →
       ∃ out, mainGo username image env = some out ∧ out.exitCode = 1 ∧
         out.deletesIssued =
           (pre.filter fun p => decide (env.now - p.lastUpdated.ns > thr)).map Tag.name
             ++ [t.name]) ∧
    (env.del t.name = DelOutcome.reqErr m →
       ∃ out, mainGo username image env = some out ∧ out.exitCode = 1 ∧
         out.deletesIssued =
           (pre.filter fun p => decide (env.now - p.lastUpdated.ns > thr)).map Tag.name) := by
  have hmain := mainGo_reap username image env thr tok (pre ++ t :: post) l r hthr hauth hlist
  have hf := reapLoop_fatal env.del env.now thr t m pre post hpre ht
  constructor
  · intro hd
    exact ⟨_, hmain, (hf.1 hd).1, (hf.1 hd).2⟩
  · intro hd
    exact ⟨_, hmain, (hf.2 hd).1, (hf.2 hd).2⟩

/-- Witness for C5: with tags `a`, `fresh`, `bad`, `c` where `bad`'s
DELETE dies in transport, the run exits 1 having sent only the DELETEs
for `a` and `bad` (nothing for `c`); when `bad`'s DELETE already dies
in request construction, only `a`'s DELETE was sent. -/
theorem C5_witness :
    (∃ out, mainGo "alice" "app" envDoFatal = some out ∧ out.exitCode = 1 ∧
       out.deletesIssued = ["a", "bad"]) ∧
    (∃ out, mainGo "alice" "app" envReqFatal = some out ∧ out.exitCode = 1 ∧
       out.deletesIssued = ["a"]) := by
  constructor
  · obtain ⟨out, h1, h2, h3⟩ :=
      (C5_fatal_delete_aborts_run "alice" "app" "token" "connection reset" envDoFatal
        thrW preF postF tagBad 0 1 rfl rfl (by rfl)
        (fun p hp _ => ⟨204, by fin_cases hp <;> rfl⟩) (by decide)).1 rfl
    refine ⟨out, h1, h2, ?_⟩
    rw [h3]
    rfl
  · obtain ⟨out, h1, h2, h3⟩ :=
      (C5_fatal_delete_aborts_run "alice" "app" "token" "invalid url" envReqFatal
        thrW preF postF tagBad 0 1 rfl rfl (by rfl)
        (fun p hp _ => ⟨204, by fin_cases hp <;> rfl⟩) (by decide)).2 rfl
    refine ⟨out, h1, h2, ?_⟩
    rw [h3]
    rfl

/-- C6: a delete attempt whose response completes with a status code
other than 204 No Content gets its diagnostic printed but does not
stop the batch: the loop still sends one DELETE per over-threshold tag
(204 being the only status treated as success, with no diagnostic),
and the process exits 0 at the end. -/
theorem C6_unexpected_status_continues (username image tok : String) (env : MainEnv)
    (thr : Int) (pre post : List Tag) (t : Tag) (c : Nat) (l r : Nat)
    (hthr : env.thresholdRes = Except.ok thr)
    (hauth : env.authRes = Except.ok tok)
    (hlist : ListGo unmarshalTagList env.fetch env.fuel (tagsURL username image) [] =
      some ⟨pre ++ t :: post, none, l, r⟩)
    (hall : ∀ q ∈ pre ++ t :: post, ∃ c2, env.del q.name = DelOutcome.status c2)
    (ht : env.now - t.lastUpdated.ns > thr)
    (hc : env.del t.name = DelOutcome.status c)
    (hc204 : c ≠ 204) :
    ∃ out, mainGo username image env = some out ∧ out.exitCode = 0 ∧
      Event.unexpectedStatus c ∈ out.events ∧
      out.deletesIssued =
        ((pre ++ t :: post).filter
          fun q => decide (env.now - q.lastUpdated.ns > thr)).map Tag.name := by
  have hmain := mainGo_reap username image env thr tok (pre ++ t :: post) l r hthr hauth hlist
  have hs := reapLoop_all_status env.del env.now thr (pre ++ t :: post)
    (fun q hq _ => hall q hq)
  have hmem := reapLoop_unexpected_mem env.del env.now thr t c pre post
    (fun p hp _ => hall p (List.mem_append_left _ hp)) ht hc hc204
  exact ⟨_, hmain, hs.1, hmem, hs.2⟩

/-- Witness for C6: with `bad`'s DELETE answering 403 and the rest 204,
the 403 diagnostic is printed, DELETEs are still sent for all three
over-threshold tags `a`, `bad`, `c`, and the run exits 0. -/
theorem C6_witness :
    ∃ out, mainGo "alice" "app" envForbidden = some out ∧ out.exitCode = 0 ∧
      Event.unexpectedStatus 403 ∈ out.events ∧
      out.deletesIssued = ["a", "bad", "c"] := by
  obtain ⟨out, h1, h2, h3, h4⟩ :=
    C6_unexpected_status_continues "alice" "app" "token" envForbidden thrW
      preF postF tagBad 403 0 1 rfl rfl (by rfl)
      (by intro q hq; fin_cases hq <;> exact ⟨_, rfl⟩)
      (by decide) rfl (by decide)
  refine ⟨out, h1, h2, h3, ?_⟩
  rw [h4]
  rfl

end HubScrub
